import Mathlib

/-!
Verification of the structured multi-sink logging pipeline of
go-aws-lambda-sdk (`pkg/logger`): record model, copy-on-write context
propagation, the sink registry, the fan-out orchestrator with fallback
error reporting, and the FilterSink / BufferedSink / RotatingFileSink
state machines.  Each Go function is translated into an executable Lean
definition; JSON serialization and the OS clock are abstracted (records
carry already-formatted strings, serialized lines are passed as the
strings the sinks persist).
-/

namespace LoggerModel

/-- An arbitrary structured value carried in a log context (`any` in Go);
string and integer payloads suffice for the properties below. -/
inductive Val where
  | str (s : String)
  | int (n : Int)
deriving DecidableEq, Repr

/-- Go type `ContextValue = map[string]any`, modelled as an association list with
map semantics given by `mapLookup` / `mapSet`. -/
abbrev ContextValue := List (String × Val)

/-- Go map read: the value bound to `k`, if any. -/
def mapLookup (m : ContextValue) (k : String) : Option Val :=
  (m.find? (fun e => e.1 == k)).map (fun e => e.2)

/-- Go map write on a fresh copy (`lo.Assign` + `newValue[key] = value`):
drop any old binding of `k`, add the new one. -/
def mapSet (m : ContextValue) (k : String) (v : Val) : ContextValue :=
  m.filter (fun e => e.1 != k) ++ [(k, v)]

/-- A request context: either carries a `ContextValue` under the logger's
private key, or carries none (`ctx.Value(contextValueKey) == nil`). -/
abbrev Ctx := Option ContextValue

/-- Function `logger.WithValue`: copy-on-write overlay of one key. -/
def withValue (ctx : Ctx) (key : String) (value : Val) : Ctx :=
  match ctx with
  | some currentValue => some (mapSet currentValue key value)
  | none => some [(key, value)]

/-- Function `logger.GetValue`: nearest binding of `key`, `none` when absent. -/
def getValue (ctx : Ctx) (key : String) : Option Val :=
  match ctx with
  | none => none
  | some m => mapLookup m key

/-- One immutable log record (`logger.Message`). -/
structure Message where
  date : String
  level : String
  message : String
  context : ContextValue
deriving DecidableEq, Repr

def Info : String := "INFO"
def Error : String := "ERROR"
def Warn : String := "WARN"

/-! ## Sink registry (`AddSink` / `RemoveSink` / `GetSinks`) -/

/-- Method `AddSink`: append to the registry. -/
def addSink {α : Type} (sinks : List α) (s : α) : List α := sinks ++ [s]

/-- Method `RemoveSink`: `lo.Filter` keeping every sink different from `s`
(removes every registered sink equal to `s`). -/
def removeSink {α : Type} [DecidableEq α] (sinks : List α) (s : α) : List α :=
  sinks.filter (fun x => x != s)

/-- Method `GetSinks`. -/
def getSinks {α : Type} (sinks : List α) : List α := sinks

/-! ## FilterSink -/

/-- The allow-set map built by `NewFilterSink` from its `levels` list. -/
def mkLevelMap (levels : List String) : String → Bool :=
  levels.foldl (fun levelMap level => fun q => if q = level then true else levelMap q)
    (fun _ => false)

structure FilterSink where
  levels : String → Bool

def newFilterSink (levels : List String) : FilterSink :=
  { levels := mkLevelMap levels }

/-- Method `FilterSink.Write` against a wrapped sink of behavior `w`
(`w m = none` means the wrapped write succeeded, `some e` that it failed
with error `e`).  Returns the records passed to the wrapped sink and the
result of the call. -/
def FilterSink.write (f : FilterSink) (w : Message → Option String) (m : Message) :
    List Message × Option String :=
  if f.levels m.level then ([m], w m) else ([], none)

/-! ## Lemmas: context and map operations -/

theorem mapLookup_mapSet_ne (m : ContextValue) (k k' : String) (v : Val) (h : k ≠ k') :
    mapLookup (mapSet m k' v) k = mapLookup m k := by
  induction m with
  | nil =>
    have hb : (k' == k) = false := by
      simp only [beq_eq_false_iff_ne, ne_eq]
      exact fun hk => h hk.symm
    simp [mapLookup, mapSet, List.find?, hb]
  | cons e rest ih =>
    by_cases he : e.1 = k'
    · have : (e.1 != k') = false := by simp [he]
      simp only [mapSet, List.filter] at ih ⊢
      rw [this]
      have hek : (e.1 == k) = false := by
        simp [he]
        intro hk; exact absurd hk.symm (by simpa [he] using h)
      simp only [mapLookup, List.find?, hek] at ih ⊢
      simpa [mapSet, List.filter] using ih
    · have : (e.1 != k') = true := by simp [he]
      simp only [mapSet, List.filter] at ih ⊢
      rw [this]
      by_cases hek : e.1 = k
      · simp [mapLookup, List.find?, hek]
      · have hekb : (e.1 == k) = false := by simp [hek]
        simp only [mapLookup, List.find?, hekb] at ih ⊢
        simpa [mapSet, List.filter] using ih

theorem mkLevelMap_eq_contains (levels : List String) (q : String) :
    mkLevelMap levels q = true ↔ q ∈ levels := by
  suffices h : ∀ (init : String → Bool),
      (levels.foldl (fun levelMap level => fun p => if p = level then true else levelMap p) init) q
        = true ↔ (init q = true ∨ q ∈ levels) by
    have := h (fun _ => false)
    simpa [mkLevelMap] using this
  induction levels with
  | nil => intro init; simp
  | cons l rest ih =>
    intro init
    simp only [List.foldl_cons]
    rw [ih]
    by_cases hq : q = l
    · simp [hq]
    · simp [hq]

/-! ## Logger orchestrator (`printWithLevel` and the level helpers)

A sink's observable behavior on one record is `Message → Option String`
(`none` = `Write` returned `nil`, `some e` = it returned error `e`).
Dispatch is recorded as a trace: every `Write` invocation (`Call`, with
the registry index it went to and whether it came from the fallback
branch), every last-resort line printed on the error stream, and whether
the Go code would have panicked (`l.sinks[0]` on an empty registry). -/

structure Call where
  idx : Nat
  msg : Message
  fallback : Bool
deriving DecidableEq, Repr

structure DispatchResult where
  calls : List Call
  stderrLines : List String
  panicked : Bool
deriving DecidableEq, Repr

/-- The synthetic record written through the first sink when some sink
fails (`Message{Date: now, Level: Error, Message: "Logger sink error",
Context: {"error": err.Error()}}`). -/
def errRecord (fdate : String) (e : String) : Message :=
  { date := fdate, level := Error, message := "Logger sink error",
    context := [("error", Val.str e)] }

/-- The fan-out loop of `printWithLevel`: `first` is `l.sinks[0]` (its
absence on a lookup is Go's index-out-of-range panic), `i` the registry
index of the next sink. -/
def dispatchGo (first : Option (Message → Option String)) (fdate : String) (msg : Message) :
    List (Message → Option String) → Nat → DispatchResult
  | [], _ => ⟨[], [], false⟩
  | s :: restSinks, i =>
    match s msg with
    | none =>
      let r := dispatchGo first fdate msg restSinks (i + 1)
      ⟨⟨i, msg, false⟩ :: r.calls, r.stderrLines, r.panicked⟩
    | some e =>
      match first with
      | none => ⟨[⟨i, msg, false⟩], [], true⟩
      | some s0 =>
        let r := dispatchGo first fdate msg restSinks (i + 1)
        match s0 (errRecord fdate e) with
        | none =>
          ⟨⟨i, msg, false⟩ :: ⟨0, errRecord fdate e, true⟩ :: r.calls,
            r.stderrLines, r.panicked⟩
        | some _ =>
          ⟨⟨i, msg, false⟩ :: ⟨0, errRecord fdate e, true⟩ :: r.calls,
            ("Logger sink error: " ++ e ++ "\n") :: r.stderrLines, r.panicked⟩

/-- Function `logger.printWithLevel`: build the record and fan it out to every
registered sink; `fdate` stands for the wall-clock date stamped on
fallback records. -/
def printWithLevel (sinks : List (Message → Option String)) (fdate : String)
    (msg : Message) : DispatchResult :=
  dispatchGo sinks.head? fdate msg sinks 0

/-- Record construction in `printWithLevel`: context snapshot (or `{}`
when the context carries none), level, formatted text, current date. -/
def mkMessage (date level text : String) (ctx : Ctx) : Message :=
  { date := date, level := level, message := text, context := ctx.getD [] }

def infof (sinks : List (Message → Option String)) (date fdate : String)
    (ctx : Ctx) (text : String) : DispatchResult :=
  printWithLevel sinks fdate (mkMessage date Info text ctx)

def warnf (sinks : List (Message → Option String)) (date fdate : String)
    (ctx : Ctx) (text : String) : DispatchResult :=
  printWithLevel sinks fdate (mkMessage date Warn text ctx)

def errorf (sinks : List (Message → Option String)) (date fdate : String)
    (ctx : Ctx) (text : String) : DispatchResult :=
  printWithLevel sinks fdate (mkMessage date Error text ctx)

/-! ## BufferedSink -/

/-- BufferedSink state: the queue, its capacity, and whether a delayed
flush task is armed (`flushTimer != nil`). -/
structure BufferedSink where
  buffer : List Message
  bufferSize : Nat
  timerArmed : Bool
deriving DecidableEq, Repr

def newBufferedSink (bufferSize : Nat) : BufferedSink :=
  { buffer := [], bufferSize := bufferSize, timerArmed := false }

/-- The drain loop of `flush`: write each queued record to the wrapped
sink `w` in order, stopping at the first failure.  Returns the records
the wrapped sink accepted and the first error, if any. -/
def drainGo (w : Message → Option String) :
    List Message → List Message → List Message × Option String
  | [], delivered => (delivered, none)
  | m :: restMsgs, delivered =>
    match w m with
    | none => drainGo w restMsgs (delivered ++ [m])
    | some e => (delivered, some e)

/-- Method `BufferedSink.flush`: empty queue is an immediate success; otherwise
drain, and only on full success clear the queue and disarm the timer (a
mid-drain failure returns leaving the whole queue and the timer as they
were). -/
def BufferedSink.flush (w : Message → Option String) (s : BufferedSink) :
    BufferedSink × List Message × Option String :=
  if s.buffer.isEmpty then (s, [], none)
  else
    match drainGo w s.buffer [] with
    | (delivered, some e) => (s, delivered, some e)
    | (delivered, none) =>
      ({ s with buffer := [], timerArmed := false }, delivered, none)

/-- Method `BufferedSink.Write`: enqueue, re-arm the idle-flush timer, and flush
synchronously when the queue has reached capacity. -/
def BufferedSink.write (w : Message → Option String) (s : BufferedSink) (m : Message) :
    BufferedSink × List Message × Option String :=
  let s1 : BufferedSink := { s with buffer := s.buffer ++ [m], timerArmed := true }
  if s1.buffer.length ≥ s1.bufferSize then BufferedSink.flush w s1
  else (s1, [], none)

/-- A sequence of `Write` calls with no timer expiry in between;
accumulates everything the wrapped sink accepted. -/
def writeAllBuf (w : Message → Option String) :
    List Message → BufferedSink → BufferedSink × List Message
  | [], s => (s, [])
  | m :: restMsgs, s =>
    let r1 := BufferedSink.write w s m
    let r2 := writeAllBuf w restMsgs r1.1
    (r2.1, r1.2.1 ++ r2.2)

/-! ## RotatingFileSink

Paths: the sink only ever touches its base path and the numbered paths
`<base>.<i>` (`fmt.Sprintf("%s.%d", basePath, i)`), an injective naming
scheme modelled by the `RPath` constructors.  The filesystem is a map
from paths to the list of lines a file holds; a file's byte size is the
sum of its line lengths (each written line already carries its trailing
newline). -/

inductive RPath where
  | base
  | idx (i : Nat)
deriving DecidableEq, Repr

abbrev FS := RPath → Option (List String)

def emptyFS : FS := fun _ => none

def fsUpdate (p : RPath) (v : Option (List String)) (fs : FS) : FS :=
  fun q => if q = p then v else fs q

/-- Call `os.Remove` (the caller ignores "does not exist"). -/
def fsRemove (p : RPath) (fs : FS) : FS := fsUpdate p none fs

/-- Call `os.Rename oldP newP` (only invoked after a successful `os.Stat oldP`). -/
def fsRename (oldP newP : RPath) (fs : FS) : FS :=
  fsUpdate oldP none (fsUpdate newP (fs oldP) fs)

/-- Call `os.OpenFile(p, O_CREATE|O_WRONLY|O_APPEND)`: creates the file empty
when missing, otherwise leaves it as is. -/
def fsOpenAppend (p : RPath) (fs : FS) : FS :=
  match fs p with
  | some _ => fs
  | none => fsUpdate p (some []) fs

/-- Call `file.Stat().Size()`. -/
def fsSize (p : RPath) (fs : FS) : Nat :=
  match fs p with
  | some lines => (lines.map String.length).sum
  | none => 0

/-- Appending one line through the open handle on `p`. -/
def fsAppendLine (p : RPath) (line : String) (fs : FS) : FS :=
  fsUpdate p (some (((fs p).getD []) ++ [line])) fs

/-- RotatingFileSink state (`basePath` is the distinguished `RPath.base`). -/
structure RotatingFileSink where
  maxSize : Nat
  maxFiles : Nat
  currentSize : Nat
  fs : FS

/-- Method `openCurrentFile`: (re)open the base path in create/append mode and
track its on-disk size. -/
def openCurrentFile (s : RotatingFileSink) : RotatingFileSink :=
  let fs1 := fsOpenAppend RPath.base s.fs
  { s with fs := fs1, currentSize := fsSize RPath.base fs1 }

/-- One iteration of the rotation loop at index `i`: when `i` is
`maxFiles-1` first remove `<base>.<i+1>`, then rename `<base>.<i>` to
`<base>.<i+1>` if it exists. -/
def rotStep (maxFiles : Nat) (i : Nat) (fs : FS) : FS :=
  let oldPath := RPath.idx i
  let newPath := RPath.idx (i + 1)
  let fs1 := if i = maxFiles - 1 then fsRemove newPath fs else fs
  if (fs1 oldPath).isSome then fsRename oldPath newPath fs1 else fs1

/-- The rotation loop `for i := maxFiles - 1; i > 0; i--`, entered with
`i = maxFiles - 1`. -/
def rotLoop (maxFiles : Nat) : Nat → FS → FS
  | 0, fs => fs
  | i + 1, fs => rotLoop maxFiles i (rotStep maxFiles (i + 1) fs)

/-- Method `rotate`: shift the numbered files up, move the just-closed base file
to `<base>.1`, and reopen the base path fresh. -/
def rotate (s : RotatingFileSink) : RotatingFileSink :=
  let fs1 := rotLoop s.maxFiles (s.maxFiles - 1) s.fs
  let fs2 :=
    if (fs1 RPath.base).isSome then fsRename RPath.base (RPath.idx 1) fs1 else fs1
  openCurrentFile { s with fs := fs2 }

/-- Method `RotatingFileSink.Write` on the already-serialized line (the JSON
object plus its newline): rotate first when the candidate size would
exceed `maxSize`, then append and bump `currentSize`. -/
def RotatingFileSink.write (s : RotatingFileSink) (line : String) : RotatingFileSink :=
  let s1 := if s.currentSize + line.length > s.maxSize then rotate s else s
  { s1 with fs := fsAppendLine RPath.base line s1.fs,
            currentSize := s1.currentSize + line.length }

/-- Constructor `NewRotatingFileSink` over an initial filesystem. -/
def newRotatingFileSink (maxSize maxFiles : Nat) (fs0 : FS) : RotatingFileSink :=
  openCurrentFile { maxSize := maxSize, maxFiles := maxFiles, currentSize := 0, fs := fs0 }

/-- A sequence of writes of serialized lines. -/
def writeAllRot (lines : List String) (s : RotatingFileSink) : RotatingFileSink :=
  lines.foldl RotatingFileSink.write s

/-! ## Claim C4: addSink / removeSink round trip -/

/-- C4 (counterexample): with a registry already holding a sink equal to
the added one, `addSink` then `removeSink` does not restore the length:
`RemoveSink` filters out every sink equal to its argument, so both copies
go. -/
theorem c4_counterexample :
    (removeSink (addSink ([0] : List Nat) 0) 0).length ≠ (getSinks ([0] : List Nat)).length := by
  decide

/-- C4 (amended): if no sink equal to `s` is already registered, then
`addSink s` followed by `removeSink s` leaves the registry at its pre-add
length. -/
theorem c4_add_remove_length {α : Type} [DecidableEq α] (l : List α) (s : α)
    (h : s ∉ l) :
    (removeSink (addSink l s) s).length = (getSinks l).length := by
  unfold removeSink addSink getSinks
  rw [List.filter_append]
  have h1 : l.filter (fun x => x != s) = l := by
    rw [List.filter_eq_self]
    intro a ha
    simp only [bne_iff_ne, ne_eq, decide_eq_true_eq]
    exact fun he => h (he ▸ ha)
  have h2 : [s].filter (fun x => x != s) = [] := by simp
  rw [h1, h2, List.append_nil]

/-- C4 (witness): a concrete registry without duplicates. -/
theorem c4_witness :
    (removeSink (addSink ([1, 2] : List Nat) 3) 3).length = (getSinks ([1, 2] : List Nat)).length :=
  c4_add_remove_length [1, 2] 3 (by decide)

/-! ## Claim C9: copy-on-write context isolation -/

/-- C9 (counterexample): with a parent context that already binds `"b"`,
the derivation `attach(c0, "a", 1)` still sees that binding, so
`read(c1, "b")` is not absent — the claim's universally quantified
"absent" fails. -/
theorem c9_counterexample :
    ¬ (getValue (withValue (withValue none "b" (Val.int 7)) "a" (Val.int 1)) "b" = none ∧
       getValue (withValue (withValue none "b" (Val.int 7)) "b" (Val.int 2)) "a" = none) := by
  decide

/-- C9 (amended): two derivations from the same parent never observe each
other's additions — `read(attach(c0,"a",1), "b")` equals `read(c0, "b")`
and `read(attach(c0,"b",2), "a")` equals `read(c0, "a")`; in particular
both reads are absent whenever `c0` binds neither key. -/
theorem c9_context_isolation (c0 : Ctx) :
    getValue (withValue c0 "a" (Val.int 1)) "b" = getValue c0 "b" ∧
    getValue (withValue c0 "b" (Val.int 2)) "a" = getValue c0 "a" := by
  constructor
  · cases c0 with
    | none => decide
    | some m => exact mapLookup_mapSet_ne m "b" "a" (Val.int 1) (by decide)
  · cases c0 with
    | none => decide
    | some m => exact mapLookup_mapSet_ne m "a" "b" (Val.int 2) (by decide)

/-! ## Claim C8: FilterSink level filtering -/

/-- C8: a FilterSink built over allow-set `levels` forwards a record to
the wrapped sink, unmodified and with the wrapped sink's own result, iff
the record's level is in the allow-set; otherwise it forwards nothing and
returns success. -/
theorem c8_filter_invariant (levels : List String) (w : Message → Option String)
    (m : Message) :
    ((newFilterSink levels).write w m).1 = (if m.level ∈ levels then [m] else []) ∧
    (m.level ∈ levels → ((newFilterSink levels).write w m).2 = w m) ∧
    (m.level ∉ levels → ((newFilterSink levels).write w m).2 = none) := by
  by_cases hm : m.level ∈ levels
  · have hb : mkLevelMap levels m.level = true := (mkLevelMap_eq_contains _ _).mpr hm
    refine ⟨?_, fun _ => ?_, fun hc => absurd hm hc⟩ <;>
      simp [FilterSink.write, newFilterSink, hb, hm]
  · have hb : mkLevelMap levels m.level = false := by
      rw [← Bool.not_eq_true, mkLevelMap_eq_contains]
      exact hm
    refine ⟨?_, fun hc => absurd hc hm, fun _ => ?_⟩ <;>
      simp [FilterSink.write, newFilterSink, hb, hm]

def wProbe : Message → Option String := fun _ => some "probe"

def mErrC8 : Message := { date := "d", level := Error, message := "e", context := [] }

def mInfoC8 : Message := { date := "d", level := Info, message := "i", context := [] }

/-- C8 (witness): allow-set {ERROR} forwards an ERROR record with the
wrapped result and swallows an INFO record. -/
theorem c8_witness :
    ((newFilterSink [Error]).write wProbe mErrC8).2 = wProbe mErrC8 ∧
    ((newFilterSink [Error]).write wProbe mInfoC8).2 = none :=
  ⟨(c8_filter_invariant [Error] wProbe mErrC8).2.1 (by decide),
   (c8_filter_invariant [Error] wProbe mInfoC8).2.2 (by decide)⟩

/-! ## Claim C10: empty sink registry -/

/-- C10: with an empty sink registry every log call (`Infof`, `Warnf`,
`Errorf`) completes with an empty trace — no sink call, no error-stream
line, and no panic: the `l.sinks[0]` fallback is only reachable after a
sink in the (empty) registry fails, so it is never evaluated. -/
theorem c10_empty_sinks_safe (date fdate : String) (ctx : Ctx) (text : String) :
    infof [] date fdate ctx text = ⟨[], [], false⟩ ∧
    warnf [] date fdate ctx text = ⟨[], [], false⟩ ∧
    errorf [] date fdate ctx text = ⟨[], [], false⟩ :=
  ⟨rfl, rfl, rfl⟩

/-! ## BufferedSink lemmas -/

theorem drainGo_all_ok (w : Message → Option String) :
    ∀ (ls acc : List Message), (∀ x ∈ ls, w x = none) →
      drainGo w ls acc = (acc ++ ls, none)
  | [], acc, _ => by simp [drainGo]
  | m :: rest, acc, h => by
    have hm : w m = none := h m (by simp)
    have ih := drainGo_all_ok w rest (acc ++ [m]) (fun x hx => h x (by simp [hx]))
    simp [drainGo, hm, ih]

theorem drainGo_none (w : Message → Option String) :
    ∀ (ls acc : List Message), (drainGo w ls acc).2 = none →
      (drainGo w ls acc).1 = acc ++ ls ∧ ∀ x ∈ ls, w x = none
  | [], acc, _ => by simp [drainGo]
  | m :: rest, acc, h => by
    cases hm : w m with
    | none =>
      have h2 : (drainGo w rest (acc ++ [m])).2 = none := by
        simpa [drainGo, hm] using h
      have ih := drainGo_none w rest (acc ++ [m]) h2
      refine ⟨?_, ?_⟩
      · simpa [drainGo, hm] using ih.1
      · intro x hx
        rcases List.mem_cons.mp hx with hx | hx
        · exact hx ▸ hm
        · exact ih.2 x hx
    | some e => simp [drainGo, hm] at h

theorem drainGo_some (w : Message → Option String) :
    ∀ (ls acc : List Message) (e : String), (drainGo w ls acc).2 = some e →
      ∃ pre m rest, ls = pre ++ m :: rest ∧ w m = some e ∧
        (∀ x ∈ pre, w x = none) ∧ (drainGo w ls acc).1 = acc ++ pre
  | [], acc, e, h => by simp [drainGo] at h
  | m :: rest, acc, e, h => by
    cases hm : w m with
    | none =>
      have h2 : (drainGo w rest (acc ++ [m])).2 = some e := by
        simpa [drainGo, hm] using h
      obtain ⟨pre, m', rest', hsplit, hfail, hok, hdel⟩ := drainGo_some w rest (acc ++ [m]) e h2
      refine ⟨m :: pre, m', rest', by simp [hsplit], hfail, ?_, ?_⟩
      · intro x hx
        rcases List.mem_cons.mp hx with hx | hx
        · exact hx ▸ hm
        · exact hok x hx
      · simpa [drainGo, hm] using hdel
    | some e0 =>
      have he : e0 = e := by simpa [drainGo, hm] using h
      refine ⟨[], m, rest, by simp, he ▸ hm, by simp, by simp [drainGo, hm]⟩

/-! ## Claim C2: BufferedSink flush semantics -/

def mA : Message := { date := "d", level := Info, message := "a", context := [] }

def mB : Message := { date := "d", level := Info, message := "b", context := [] }

def mC : Message := { date := "d", level := Info, message := "c", context := [] }

def wFail : Message → Option String :=
  fun m => if m.message = "b" then some "boom" else none

def sC2 : BufferedSink := { buffer := [mA, mB, mC], bufferSize := 10, timerArmed := true }

/-- C2 (counterexample): with a wrapped sink failing on the second queued
record, `flush` returns the failure after delivering only the first
record, but the queue is left holding the *entire* batch — nothing is
discarded, including the already-delivered record. -/
theorem c2_counterexample :
    (BufferedSink.flush wFail sC2).2.2 = some "boom" ∧
    (BufferedSink.flush wFail sC2).2.1 = [mA] ∧
    (BufferedSink.flush wFail sC2).1.buffer = [mA, mB, mC] ∧
    (BufferedSink.flush wFail sC2).1.buffer ≠ [] := by
  decide

/-- C2 (amended): `flush` drains the queue in enqueue order; on the first
wrapped-sink failure it stops draining and returns that failure, the
records before the failing one having reached the wrapped sink, and the
queue (and timer) left entirely unchanged — the batch, including the
already-written prefix, stays queued for retry; a successful flush of a
nonempty queue delivers the whole queue in order, empties it, and disarms
the timer. -/
theorem c2_buffered_flush (w : Message → Option String) (s : BufferedSink) :
    (s.buffer ≠ [] → (BufferedSink.flush w s).2.2 = none →
      ((BufferedSink.flush w s).2.1 = s.buffer ∧
       (BufferedSink.flush w s).1.buffer = [] ∧
       (BufferedSink.flush w s).1.timerArmed = false)) ∧
    (∀ e, (BufferedSink.flush w s).2.2 = some e →
      ((BufferedSink.flush w s).1 = s ∧
       ∃ m rest, s.buffer = (BufferedSink.flush w s).2.1 ++ m :: rest ∧
         w m = some e ∧ ∀ x ∈ (BufferedSink.flush w s).2.1, w x = none)) := by
  by_cases hb : s.buffer = []
  · have hie : s.buffer.isEmpty = true := by simp [hb]
    constructor
    · intro hne
      exact absurd hb hne
    · intro e he
      simp [BufferedSink.flush, hie] at he
  · have hie : s.buffer.isEmpty = false := by
      cases hbuf : s.buffer with
      | nil => exact absurd hbuf hb
      | cons a l => rfl
    cases hd : drainGo w s.buffer [] with
    | mk delivered err =>
      cases err with
      | none =>
        have h2 : (drainGo w s.buffer []).2 = none := by rw [hd]
        have hdel := (drainGo_none w s.buffer [] h2).1
        rw [hd] at hdel
        constructor
        · intro _ _
          simp only [BufferedSink.flush, hie, Bool.false_eq_true, if_false, hd]
          simpa using hdel
        · intro e he
          simp [BufferedSink.flush, hie, hd] at he
      | some e0 =>
        have h2 : (drainGo w s.buffer []).2 = some e0 := by rw [hd]
        obtain ⟨pre, m, rest, hsplit, hfail, hok, hdel⟩ := drainGo_some w s.buffer [] e0 h2
        rw [hd] at hdel
        simp only [List.nil_append] at hdel
        constructor
        · intro _ he
          simp [BufferedSink.flush, hie, hd] at he
        · intro e he
          have he0 : e0 = e := by
            simpa [BufferedSink.flush, hie, hd] using he
          subst he0
          simp only [BufferedSink.flush, hie, Bool.false_eq_true, if_false, hd]
          exact ⟨trivial, m, rest, by rw [hsplit, hdel], hfail,
            fun x hx => hok x (hdel ▸ hx)⟩

def wOkC2 : Message → Option String := fun _ => none

def sOkC2 : BufferedSink := { buffer := [mA, mB], bufferSize := 10, timerArmed := true }

/-- C2 (witness): the amended theorem at a failing and a succeeding
concrete flush. -/
theorem c2_witness :
    (BufferedSink.flush wFail sC2).1 = sC2 ∧
    (BufferedSink.flush wOkC2 sOkC2).2.1 = sOkC2.buffer ∧
    (BufferedSink.flush wOkC2 sOkC2).1.timerArmed = false :=
  ⟨((c2_buffered_flush wFail sC2).2 "boom" (by decide)).1,
   ((c2_buffered_flush wOkC2 sOkC2).1 (by decide) (by decide)).1,
   ((c2_buffered_flush wOkC2 sOkC2).1 (by decide) (by decide)).2.2⟩

/-! ## Claim C7: BufferedSink capacity threshold -/

theorem writeAllBuf_under (w : Message → Option String) :
    ∀ (msgs : List Message) (s : BufferedSink),
      s.buffer.length + msgs.length < s.bufferSize →
      (writeAllBuf w msgs s).1.buffer = s.buffer ++ msgs ∧
      (writeAllBuf w msgs s).1.bufferSize = s.bufferSize ∧
      (writeAllBuf w msgs s).2 = []
  | [], s, _ => by simp [writeAllBuf]
  | m :: rest, s, h => by
    have hlt : ¬ ((s.buffer ++ [m]).length ≥ s.bufferSize) := by
      simp only [List.length_append, List.length_cons, List.length_nil] at h ⊢
      omega
    have hw : BufferedSink.write w s m =
        ({ s with buffer := s.buffer ++ [m], timerArmed := true }, [], none) := by
      simp only [BufferedSink.write]
      rw [if_neg hlt]
    have ih := writeAllBuf_under w rest
      { s with buffer := s.buffer ++ [m], timerArmed := true }
      (by simp only [List.length_append, List.length_cons, List.length_nil] at h ⊢; omega)
    simp only [writeAllBuf, hw]
    exact ⟨by rw [ih.1]; simp, by rw [ih.2.1], by simp [ih.2.2]⟩

theorem writeAllBuf_append (w : Message → Option String) :
    ∀ (as bs : List Message) (s : BufferedSink),
      writeAllBuf w (as ++ bs) s =
        ((writeAllBuf w bs (writeAllBuf w as s).1).1,
         (writeAllBuf w as s).2 ++ (writeAllBuf w bs (writeAllBuf w as s).1).2)
  | [], bs, s => by simp [writeAllBuf]
  | a :: as, bs, s => by
    simp only [List.cons_append, writeAllBuf, List.append_eq]
    rw [writeAllBuf_append w as bs]
    simp [List.append_assoc]

/-- A `Write` that fills the buffer to capacity flushes synchronously;
with an always-succeeding wrapped sink the whole queue is delivered, the
queue is cleared and the timer disarmed. -/
theorem write_at_capacity (w : Message → Option String) (hw : ∀ m, w m = none)
    (s : BufferedSink) (m : Message) (hlen : s.buffer.length + 1 ≥ s.bufferSize) :
    BufferedSink.write w s m =
      ({ s with buffer := [], timerArmed := false }, s.buffer ++ [m], none) := by
  have hcond : (s.buffer ++ [m]).length ≥ s.bufferSize := by
    simp only [List.length_append, List.length_cons, List.length_nil]
    omega
  have hne : (s.buffer ++ [m]).isEmpty = false := by
    cases s.buffer <;> rfl
  simp only [BufferedSink.write]
  rw [if_pos hcond]
  simp only [BufferedSink.flush, hne, Bool.false_eq_true, if_false]
  rw [drainGo_all_ok w (s.buffer ++ [m]) [] (fun x _ => hw x)]
  simp

def wDown : Message → Option String := fun _ => some "down"

/-- C7 (counterexample): a BufferedSink of capacity 2 over a wrapped sink
that rejects every record: upon the 2nd write the flush stops at the
first failure, so the wrapped sink has not received the two records. -/
theorem c7_counterexample :
    (writeAllBuf wDown [mA, mB] (newBufferedSink 2)).2 ≠ [mA, mB] := by
  decide

/-- C7 (amended): a BufferedSink with capacity N over any wrapped sink,
after k < N writes and no timer expiry, has forwarded nothing to the
wrapped sink (no flush is attempted, so this holds whatever the wrapped
sink does); upon the N-th write — provided the wrapped sink accepts every
record — it has forwarded exactly those N records in the order written,
and the queue is empty again. -/
theorem c7_buffering_threshold (N : Nat) (hN : 1 ≤ N) (w : Message → Option String)
    (msgs : List Message) :
    (msgs.length < N → (writeAllBuf w msgs (newBufferedSink N)).2 = []) ∧
    ((∀ m, w m = none) → msgs.length = N →
      (writeAllBuf w msgs (newBufferedSink N)).2 = msgs ∧
      (writeAllBuf w msgs (newBufferedSink N)).1.buffer = []) := by
  constructor
  · intro hlt
    exact (writeAllBuf_under w msgs (newBufferedSink N)
      (by simp only [newBufferedSink, List.length_nil]; omega)).2.2
  · intro hw hlen
    have hne : msgs ≠ [] := by
      intro h0
      rw [h0] at hlen
      simp at hlen
      omega
    obtain ⟨front, last, hsplit⟩ : ∃ f l, msgs = f ++ [l] :=
      ⟨msgs.dropLast, msgs.getLast hne, (List.dropLast_append_getLast hne).symm⟩
    have hfl : front.length + 1 = N := by
      rw [hsplit] at hlen
      simpa using hlen
    have hfront := writeAllBuf_under w front (newBufferedSink N)
      (by simp only [newBufferedSink, List.length_nil]; omega)
    have hcap : (writeAllBuf w front (newBufferedSink N)).1.buffer.length + 1 ≥
        (writeAllBuf w front (newBufferedSink N)).1.bufferSize := by
      rw [hfront.1, hfront.2.1]
      simp only [newBufferedSink, List.nil_append]
      omega
    have hone := write_at_capacity w hw (writeAllBuf w front (newBufferedSink N)).1 last hcap
    rw [hsplit, writeAllBuf_append w front [last] (newBufferedSink N)]
    simp only [writeAllBuf, hone, hfront.2.2, hfront.1]
    simp [newBufferedSink]

/-- C7 (witness): capacity 2 — after one write nothing is forwarded even
when the wrapped sink rejects everything (k < N holds unconditionally),
and over an accepting wrapped sink both records are forwarded in order by
the second write, leaving the queue empty. -/
theorem c7_witness :
    (writeAllBuf wDown [mA] (newBufferedSink 2)).2 = [] ∧
    (writeAllBuf wOkC2 [mA] (newBufferedSink 2)).2 = [] ∧
    (writeAllBuf wOkC2 [mA, mB] (newBufferedSink 2)).2 = [mA, mB] ∧
    (writeAllBuf wOkC2 [mA, mB] (newBufferedSink 2)).1.buffer = [] :=
  ⟨(c7_buffering_threshold 2 (by decide) wDown [mA]).1 (by decide),
   (c7_buffering_threshold 2 (by decide) wOkC2 [mA]).1 (by decide),
   ((c7_buffering_threshold 2 (by decide) wOkC2 [mA, mB]).2 (fun _ => rfl) (by decide)).1,
   ((c7_buffering_threshold 2 (by decide) wOkC2 [mA, mB]).2 (fun _ => rfl) (by decide)).2⟩

/-! ## Claim C3: fan-out with failure isolation -/

/-- The fallback call generated by one sink's behavior on `msg`, if it
fails. -/
def fallbackCallOf (fdate : String) (msg : Message) (s : Message → Option String) :
    Option Call :=
  match s msg with
  | some e => some ⟨0, errRecord fdate e, true⟩
  | none => none

/-- The last-resort error-stream line generated by one sink's behavior on
`msg`, if both it and the first sink's fallback write fail. -/
def stderrLineOf (s0 : Message → Option String) (fdate : String) (msg : Message)
    (s : Message → Option String) : Option String :=
  match s msg with
  | some e =>
    match s0 (errRecord fdate e) with
    | some _ => some ("Logger sink error: " ++ e ++ "\n")
    | none => none
  | none => none

theorem dispatchGo_spec (s0 : Message → Option String) (fdate : String) (msg : Message) :
    ∀ (bs : List (Message → Option String)) (i : Nat),
      (dispatchGo (some s0) fdate msg bs i).panicked = false ∧
      (dispatchGo (some s0) fdate msg bs i).calls.filter (fun c => !c.fallback) =
        (List.range' i bs.length).map (fun j => ⟨j, msg, false⟩) ∧
      (dispatchGo (some s0) fdate msg bs i).calls.filter (fun c => c.fallback) =
        bs.filterMap (fallbackCallOf fdate msg) ∧
      (dispatchGo (some s0) fdate msg bs i).stderrLines =
        bs.filterMap (stderrLineOf s0 fdate msg)
  | [], i => by simp [dispatchGo]
  | s :: rest, i => by
    have ih := dispatchGo_spec s0 fdate msg rest (i + 1)
    have hrange : List.range' i (s :: rest).length = i :: List.range' (i + 1) rest.length := by
      simp [List.range'_succ]
    cases hs : s msg with
    | none =>
      refine ⟨by simp [dispatchGo, hs, ih.1], ?_, ?_, ?_⟩
      · simp only [dispatchGo, hs, List.filter_cons, hrange, List.map_cons]
        simp [ih.2.1]
      · simp only [dispatchGo, hs, List.filter_cons, List.filterMap_cons,
          fallbackCallOf]
        simp [ih.2.2.1]
      · simp only [dispatchGo, hs, List.filterMap_cons, stderrLineOf]
        simp [ih.2.2.2]
    | some e =>
      cases h0 : s0 (errRecord fdate e) with
      | none =>
        refine ⟨by simp [dispatchGo, hs, h0, ih.1], ?_, ?_, ?_⟩
        · simp only [dispatchGo, hs, h0, List.filter_cons, hrange, List.map_cons]
          simp [ih.2.1]
        · simp only [dispatchGo, hs, h0, List.filter_cons, List.filterMap_cons,
            fallbackCallOf]
          simp [ih.2.2.1, hs]
        · simp only [dispatchGo, hs, h0, List.filterMap_cons, stderrLineOf]
          simp [ih.2.2.2, hs]
      | some e2 =>
        refine ⟨by simp [dispatchGo, hs, h0, ih.1], ?_, ?_, ?_⟩
        · simp only [dispatchGo, hs, h0, List.filter_cons, hrange, List.map_cons]
          simp [ih.2.1]
        · simp only [dispatchGo, hs, h0, List.filter_cons, List.filterMap_cons,
            fallbackCallOf]
          simp [ih.2.2.1, hs]
        · simp only [dispatchGo, hs, h0, List.filterMap_cons, stderrLineOf]
          simp [ih.2.2.2, hs]

/-- C3: for a nonempty registry, one `printWithLevel` call (i) never
panics and never propagates a sink failure, (ii) invokes `Write(msg)` on
every registered sink in registration order even when earlier sinks fail,
(iii) reports each per-sink failure by one synthetic ERROR record written
through the *first* registered sink only (index 0, the `errRecord` of
that sink's error), and (iv) prints a last-resort plain-text line on the
process error stream exactly for those failures whose fallback write
through the first sink also failed. -/
theorem c3_dispatch_isolation (s0 : Message → Option String)
    (rest : List (Message → Option String)) (fdate : String) (msg : Message) :
    (printWithLevel (s0 :: rest) fdate msg).panicked = false ∧
    (printWithLevel (s0 :: rest) fdate msg).calls.filter (fun c => !c.fallback) =
      (List.range (s0 :: rest).length).map (fun j => ⟨j, msg, false⟩) ∧
    (printWithLevel (s0 :: rest) fdate msg).calls.filter (fun c => c.fallback) =
      (s0 :: rest).filterMap (fallbackCallOf fdate msg) ∧
    (printWithLevel (s0 :: rest) fdate msg).stderrLines =
      (s0 :: rest).filterMap (stderrLineOf s0 fdate msg) := by
  have h := dispatchGo_spec s0 fdate msg (s0 :: rest) 0
  rw [List.range_eq_range']
  exact h

/-! ## Filesystem lemmas for the rotating sink -/

@[simp] theorem fsUpdate_self (p : RPath) (v : Option (List String)) (fs : FS) :
    fsUpdate p v fs p = v := by
  simp [fsUpdate]

theorem fsUpdate_ne (p q : RPath) (v : Option (List String)) (fs : FS) (h : q ≠ p) :
    fsUpdate p v fs q = fs q := by
  simp [fsUpdate, h]

theorem fsSize_appendLine (p : RPath) (line : String) (fs : FS) :
    fsSize p (fsAppendLine p line fs) = fsSize p fs + line.length := by
  cases hp : fs p with
  | none => simp [fsSize, fsAppendLine, hp]
  | some l => simp [fsSize, fsAppendLine, hp]

/-! ## Claim C1: retained-file bound -/

/-- The set of paths a RotatingFileSink with `maxFiles = M` can retain
as the code behaves: the base file plus `<base>.1 .. <base>.M`. -/
def retainedOK (M : Nat) (fs : FS) : Prop :=
  ∀ p, (fs p).isSome → p = RPath.base ∨ ∃ i, 1 ≤ i ∧ i ≤ M ∧ p = RPath.idx i

/-- The retained-path set the claim asserts: base plus
`<base>.1 .. <base>.(M-1)`. -/
def claimRetained (M : Nat) (fs : FS) : Prop :=
  ∀ p, (fs p).isSome → p = RPath.base ∨ ∃ i, 1 ≤ i ∧ i ≤ M - 1 ∧ p = RPath.idx i

theorem retainedOK_fsUpdate_none (M : Nat) (fs : FS) (p : RPath)
    (h : retainedOK M fs) : retainedOK M (fsUpdate p none fs) := by
  intro q hq
  by_cases hqp : q = p
  · subst hqp
    simp at hq
  · exact h q (by rwa [fsUpdate_ne p q none fs hqp] at hq)

theorem retainedOK_fsUpdate_base (M : Nat) (fs : FS) (v : Option (List String))
    (h : retainedOK M fs) : retainedOK M (fsUpdate RPath.base v fs) := by
  intro q hq
  by_cases hqp : q = RPath.base
  · exact Or.inl hqp
  · exact h q (by rwa [fsUpdate_ne RPath.base q v fs hqp] at hq)

theorem retainedOK_fsUpdate_idx (M : Nat) (fs : FS) (v : Option (List String))
    (i : Nat) (h1 : 1 ≤ i) (h2 : i ≤ M) (h : retainedOK M fs) :
    retainedOK M (fsUpdate (RPath.idx i) v fs) := by
  intro q hq
  by_cases hqp : q = RPath.idx i
  · exact Or.inr ⟨i, h1, h2, hqp⟩
  · exact h q (by rwa [fsUpdate_ne (RPath.idx i) q v fs hqp] at hq)

theorem retainedOK_rotStep (M i : Nat) (fs : FS) (h1 : 1 ≤ i) (h2 : i + 1 ≤ M)
    (h : retainedOK M fs) : retainedOK M (rotStep M i fs) := by
  have hfs1 : retainedOK M (if i = M - 1 then fsRemove (RPath.idx (i + 1)) fs else fs) := by
    by_cases hc : i = M - 1
    · simpa [hc] using retainedOK_fsUpdate_none M fs (RPath.idx (i + 1)) h
    · simpa [hc] using h
  set fs1 := if i = M - 1 then fsRemove (RPath.idx (i + 1)) fs else fs with hfs1def
  by_cases hs : (fs1 (RPath.idx i)).isSome
  · have hr : retainedOK M (fsRename (RPath.idx i) (RPath.idx (i + 1)) fs1) := by
      unfold fsRename
      exact retainedOK_fsUpdate_none M _ _
        (retainedOK_fsUpdate_idx M fs1 (fs1 (RPath.idx i)) (i + 1) (by omega) h2 hfs1)
    simpa [rotStep, hfs1def, hs] using hr
  · simpa [rotStep, hfs1def, hs] using hfs1

theorem retainedOK_rotLoop (M : Nat) :
    ∀ (j : Nat) (fs : FS), j ≤ M - 1 → 1 ≤ M → retainedOK M fs →
      retainedOK M (rotLoop M j fs)
  | 0, fs, _, _, h => h
  | j + 1, fs, hj, hM, h => by
    have hstep := retainedOK_rotStep M (j + 1) fs (by omega) (by omega) h
    exact retainedOK_rotLoop M j (rotStep M (j + 1) fs) (by omega) hM hstep

theorem retainedOK_openCurrentFile (M : Nat) (s : RotatingFileSink)
    (h : retainedOK M s.fs) : retainedOK M (openCurrentFile s).fs := by
  unfold openCurrentFile fsOpenAppend
  cases hb : s.fs RPath.base with
  | some l => simpa [hb] using h
  | none => simpa [hb] using retainedOK_fsUpdate_base M s.fs (some []) h

theorem retainedOK_rotate (M : Nat) (s : RotatingFileSink) (hM : 1 ≤ M)
    (hmf : s.maxFiles = M) (h : retainedOK M s.fs) : retainedOK M (rotate s).fs := by
  have hloop : retainedOK M (rotLoop s.maxFiles (s.maxFiles - 1) s.fs) := by
    rw [hmf]
    exact retainedOK_rotLoop M (M - 1) s.fs (by omega) hM h
  set fs1 := rotLoop s.maxFiles (s.maxFiles - 1) s.fs with hfs1
  have hfs2 : retainedOK M
      (if (fs1 RPath.base).isSome then fsRename RPath.base (RPath.idx 1) fs1 else fs1) := by
    by_cases hc : (fs1 RPath.base).isSome
    · have : retainedOK M (fsRename RPath.base (RPath.idx 1) fs1) := by
        unfold fsRename
        exact retainedOK_fsUpdate_none M _ _
          (retainedOK_fsUpdate_idx M fs1 (fs1 RPath.base) 1 le_rfl hM hloop)
      simpa [hc] using this
    · simpa [hc] using hloop
  exact retainedOK_openCurrentFile M _ hfs2

theorem retainedOK_write (M : Nat) (s : RotatingFileSink) (line : String) (hM : 1 ≤ M)
    (hmf : s.maxFiles = M) (h : retainedOK M s.fs) :
    (RotatingFileSink.write s line).maxFiles = M ∧
    retainedOK M (RotatingFileSink.write s line).fs := by
  by_cases hc : s.currentSize + line.length > s.maxSize
  · have hrot := retainedOK_rotate M s hM hmf h
    have hmf2 : (rotate s).maxFiles = M := hmf
    constructor
    · simpa [RotatingFileSink.write, hc] using hmf2
    · have : retainedOK M (fsAppendLine RPath.base line (rotate s).fs) := by
        unfold fsAppendLine
        exact retainedOK_fsUpdate_base M _ _ hrot
      simpa [RotatingFileSink.write, hc] using this
  · constructor
    · simpa [RotatingFileSink.write, hc] using hmf
    · have : retainedOK M (fsAppendLine RPath.base line s.fs) := by
        unfold fsAppendLine
        exact retainedOK_fsUpdate_base M _ _ h
      simpa [RotatingFileSink.write, hc] using this

theorem retainedOK_writeAllRot (M : Nat) (hM : 1 ≤ M) :
    ∀ (lines : List String) (s : RotatingFileSink), s.maxFiles = M → retainedOK M s.fs →
      (writeAllRot lines s).maxFiles = M ∧ retainedOK M (writeAllRot lines s).fs
  | [], s, hmf, h => ⟨hmf, h⟩
  | line :: rest, s, hmf, h => by
    have hw := retainedOK_write M s line hM hmf h
    exact retainedOK_writeAllRot M hM rest (RotatingFileSink.write s line) hw.1 hw.2

/-- C1 (counterexample): maxFiles = 2, maxSize = 0; after two writes on a
fresh sink the file `<base>.2` exists — a third retained file outside the
claimed set {base, base.1}: rotation renames `<base>.1` up to `<base>.2`
instead of evicting it, and the path it deletes is index maxFiles, not
maxFiles − 1. -/
theorem c1_counterexample :
    ¬ claimRetained 2 (writeAllRot ["a", "b"] (newRotatingFileSink 0 2 emptyFS)).fs := by
  intro h
  have hsome : ((writeAllRot ["a", "b"] (newRotatingFileSink 0 2 emptyFS)).fs
      (RPath.idx 2)).isSome := by decide
  rcases h (RPath.idx 2) hsome with hb | ⟨i, h1, h2, hi⟩
  · exact absurd hb (by decide)
  · have : i = 2 := by
      have := RPath.idx.inj hi
      omega
    omega

/-- C1 (amended): a RotatingFileSink with `maxFiles = M ≥ 1` retains at
most M+1 files: after any sequence of writes on a fresh sink every
existing path is the base file or `<base>.i` with 1 ≤ i ≤ M (the rotation
loop shifts `<base>.i` to `<base>.(i+1)` for i ≤ M−1 and the path it
deletes is `<base>.M`). -/
theorem c1_rotating_retained_bound (S M : Nat) (hM : 1 ≤ M) (lines : List String) :
    retainedOK M (writeAllRot lines (newRotatingFileSink S M emptyFS)).fs := by
  have hinit : retainedOK M (newRotatingFileSink S M emptyFS).fs := by
    apply retainedOK_openCurrentFile
    intro p hp
    simp [emptyFS] at hp
  exact (retainedOK_writeAllRot M hM lines (newRotatingFileSink S M emptyFS) rfl hinit).2

/-- C1 (witness): the amended bound at a concrete sink. -/
theorem c1_witness :
    retainedOK 1 (writeAllRot ["a"] (newRotatingFileSink 0 1 emptyFS)).fs :=
  c1_rotating_retained_bound 0 1 (by decide) ["a"]

/-! ## Claim C5: size bookkeeping and rotation trigger -/

/-- The tracked `currentSize` equals the byte length of the currently
open (base) file. -/
def sizeInv (s : RotatingFileSink) : Prop :=
  s.currentSize = fsSize RPath.base s.fs

theorem sizeInv_openCurrentFile (s : RotatingFileSink) : sizeInv (openCurrentFile s) :=
  rfl

theorem sizeInv_rotate (s : RotatingFileSink) : sizeInv (rotate s) :=
  rfl

theorem sizeInv_write (s : RotatingFileSink) (line : String) (h : sizeInv s) :
    sizeInv (RotatingFileSink.write s line) := by
  by_cases hc : s.currentSize + line.length > s.maxSize
  · show (RotatingFileSink.write s line).currentSize =
      fsSize RPath.base (RotatingFileSink.write s line).fs
    simp only [RotatingFileSink.write, hc, if_pos]
    rw [fsSize_appendLine]
    rw [sizeInv_rotate s]
  · show (RotatingFileSink.write s line).currentSize =
      fsSize RPath.base (RotatingFileSink.write s line).fs
    simp only [RotatingFileSink.write, hc, if_neg, if_false]
    rw [fsSize_appendLine]
    rw [h]

theorem write_no_rotation (s : RotatingFileSink) (line : String)
    (h : s.currentSize + line.length ≤ s.maxSize) :
    (RotatingFileSink.write s line).fs RPath.base =
      some (((s.fs RPath.base).getD []) ++ [line]) ∧
    (∀ p, p ≠ RPath.base → (RotatingFileSink.write s line).fs p = s.fs p) ∧
    (RotatingFileSink.write s line).currentSize = s.currentSize + line.length ∧
    (RotatingFileSink.write s line).maxSize = s.maxSize ∧
    (RotatingFileSink.write s line).maxFiles = s.maxFiles := by
  have hc : ¬ (s.currentSize + line.length > s.maxSize) := by omega
  refine ⟨?_, fun p hp => ?_, ?_, ?_, ?_⟩
  · simp [RotatingFileSink.write, hc, fsAppendLine, fsUpdate]
  · simp [RotatingFileSink.write, hc, fsAppendLine, fsUpdate, hp]
  · simp [RotatingFileSink.write, hc]
  · simp [RotatingFileSink.write, hc]
  · simp [RotatingFileSink.write, hc]

/-- After any rotation the freshly reopened base file is empty. -/
theorem rotate_base_empty (s : RotatingFileSink) : (rotate s).fs RPath.base = some [] := by
  unfold rotate openCurrentFile
  set fs1 := rotLoop s.maxFiles (s.maxFiles - 1) s.fs with hfs1
  by_cases hb : (fs1 RPath.base).isSome
  · have hn : fsRename RPath.base (RPath.idx 1) fs1 RPath.base = none := by
      simp [fsRename]
    simp only [hb, if_pos, fsOpenAppend, hn]
    simp
  · have hn : fs1 RPath.base = none := by
      cases h : fs1 RPath.base with
      | none => rfl
      | some l => rw [h] at hb; simp at hb
    simp [hn, fsOpenAppend, fsUpdate]

theorem write_rotation_base (s : RotatingFileSink) (line : String)
    (h : s.currentSize + line.length > s.maxSize) :
    (RotatingFileSink.write s line).fs RPath.base = some [line] := by
  simp only [RotatingFileSink.write, h, if_pos, fsAppendLine, rotate_base_empty s]
  simp

/-- C5: (i) a freshly constructed sink satisfies the size invariant,
(ii) every write preserves it — the tracked current size is always the
byte length of the currently open file; (iii) when the candidate size
(current size + serialized line length) does not exceed max size, the
write performs no rotation: the line is appended to the base file and no
other path changes; (iv) when it does exceed max size, rotation happens
before the line is written — afterwards the base file holds exactly the
new line. -/
theorem c5_size_invariant_rotation_trigger :
    (∀ S M fs0, sizeInv (newRotatingFileSink S M fs0)) ∧
    (∀ s line, sizeInv s → sizeInv (RotatingFileSink.write s line)) ∧
    (∀ (s : RotatingFileSink) (line : String), s.currentSize + line.length ≤ s.maxSize →
      ((RotatingFileSink.write s line).fs RPath.base =
         some (((s.fs RPath.base).getD []) ++ [line]) ∧
       ∀ p, p ≠ RPath.base → (RotatingFileSink.write s line).fs p = s.fs p)) ∧
    (∀ (s : RotatingFileSink) (line : String), s.currentSize + line.length > s.maxSize →
      (RotatingFileSink.write s line).fs RPath.base = some [line]) :=
  ⟨fun _ _ _ => rfl,
   sizeInv_write,
   fun s line h => ⟨(write_no_rotation s line h).1, (write_no_rotation s line h).2.1⟩,
   write_rotation_base⟩

/-- C5 (witness): the invariant and both trigger directions at concrete
writes (capacity 5: a 3-byte line appends without rotation, an 8-byte
line rotates first and lands alone in the fresh base file). -/
theorem c5_witness :
    sizeInv (RotatingFileSink.write (newRotatingFileSink 5 2 emptyFS) "abc") ∧
    (RotatingFileSink.write (newRotatingFileSink 5 2 emptyFS) "abc").fs RPath.base =
      some ((((newRotatingFileSink 5 2 emptyFS).fs RPath.base).getD []) ++ ["abc"]) ∧
    (RotatingFileSink.write (newRotatingFileSink 5 2 emptyFS) "abcdefgh").fs RPath.base =
      some ["abcdefgh"] :=
  ⟨c5_size_invariant_rotation_trigger.2.1 (newRotatingFileSink 5 2 emptyFS) "abc"
     (c5_size_invariant_rotation_trigger.1 5 2 emptyFS),
   (c5_size_invariant_rotation_trigger.2.2.1 (newRotatingFileSink 5 2 emptyFS) "abc"
     (by decide)).1,
   c5_size_invariant_rotation_trigger.2.2.2 (newRotatingFileSink 5 2 emptyFS) "abcdefgh"
     (by decide)⟩

/-! ## Claim C6: first rotation moves the base content to `<base>.1` -/

theorem rotStep_no_idx (M i : Nat) (fs : FS) (hi : 1 ≤ i)
    (hidx : ∀ k, 1 ≤ k → fs (RPath.idx k) = none) :
    rotStep M i fs = fs := by
  have hrem : fsRemove (RPath.idx (i + 1)) fs = fs := by
    funext q
    by_cases hq : q = RPath.idx (i + 1)
    · subst hq
      simp [fsRemove, fsUpdate, (hidx (i + 1) (by omega)).symm]
    · simp [fsRemove, fsUpdate_ne _ _ _ _ hq]
  have hfs1 : (if i = M - 1 then fsRemove (RPath.idx (i + 1)) fs else fs) = fs := by
    by_cases hc : i = M - 1
    · rw [if_pos hc, hrem]
    · rw [if_neg hc]
  simp only [rotStep, hfs1, hidx i hi]
  simp

theorem rotLoop_no_idx (M : Nat) :
    ∀ (j : Nat) (fs : FS), (∀ k, 1 ≤ k → fs (RPath.idx k) = none) →
      rotLoop M j fs = fs
  | 0, _, _ => rfl
  | j + 1, fs, hidx => by
    simp only [rotLoop]
    rw [rotStep_no_idx M (j + 1) fs (by omega) hidx]
    exact rotLoop_no_idx M j fs hidx

/-- A rotation from a state with no numbered files: the base content (if
any) moves to `<base>.1`, the base file is reopened empty, and
`<base>.k` stays absent for k ≥ 2. -/
theorem rotate_fresh (s : RotatingFileSink)
    (hidx : ∀ k, 1 ≤ k → s.fs (RPath.idx k) = none) :
    (rotate s).fs RPath.base = some [] ∧
    (rotate s).fs (RPath.idx 1) = s.fs RPath.base ∧
    (∀ k, 2 ≤ k → (rotate s).fs (RPath.idx k) = none) := by
  have h1ne : RPath.idx 1 ≠ RPath.base := by simp
  unfold rotate openCurrentFile
  rw [rotLoop_no_idx s.maxFiles (s.maxFiles - 1) s.fs hidx]
  cases hb : s.fs RPath.base with
  | some c =>
    have hren : fsRename RPath.base (RPath.idx 1) s.fs RPath.base = none := by
      simp [fsRename]
    refine ⟨?_, ?_, fun k hk => ?_⟩
    · simp [hb, fsOpenAppend, hren, fsRename, fsUpdate]
    · have hkne : RPath.idx 1 ≠ RPath.base := by simp
      simp [hb, fsOpenAppend, hren, fsRename, fsUpdate]
    · have hk1 : RPath.idx k ≠ RPath.idx 1 := by
        intro hcontra
        have := RPath.idx.inj hcontra
        omega
      have hkb : RPath.idx k ≠ RPath.base := by simp
      simp [hb, fsOpenAppend, hren, fsRename, fsUpdate, hk1, hkb,
        hidx k (by omega)]
  | none =>
    refine ⟨?_, ?_, fun k hk => ?_⟩
    · simp [hb, fsOpenAppend, fsUpdate]
    · simp [hb, fsOpenAppend, fsUpdate, hidx 1 le_rfl]
    · have hkb : RPath.idx k ≠ RPath.base := by simp
      simp [hb, fsOpenAppend, fsUpdate, hkb, hidx k (by omega)]

theorem write_rotation_fresh (s : RotatingFileSink) (line : String)
    (hgt : s.currentSize + line.length > s.maxSize)
    (hidx : ∀ k, 1 ≤ k → s.fs (RPath.idx k) = none) :
    (RotatingFileSink.write s line).fs RPath.base = some [line] ∧
    (RotatingFileSink.write s line).fs (RPath.idx 1) = s.fs RPath.base := by
  have hr := rotate_fresh s hidx
  have hw : (RotatingFileSink.write s line).fs =
      fsAppendLine RPath.base line (rotate s).fs := by
    simp [RotatingFileSink.write, hgt]
  rw [hw]
  constructor
  · simp [fsAppendLine, fsUpdate, hr.1]
  · have h1ne : RPath.idx 1 ≠ RPath.base := by simp
    rw [fsAppendLine, fsUpdate_ne _ _ _ _ h1ne]
    exact hr.2.1

theorem writeAllRot_no_rotation :
    ∀ (ls : List String) (s : RotatingFileSink) (c : List String),
      s.fs RPath.base = some c →
      s.currentSize + (ls.map String.length).sum ≤ s.maxSize →
      (writeAllRot ls s).fs RPath.base = some (c ++ ls) ∧
      (∀ p, p ≠ RPath.base → (writeAllRot ls s).fs p = s.fs p) ∧
      (writeAllRot ls s).currentSize = s.currentSize + (ls.map String.length).sum ∧
      (writeAllRot ls s).maxSize = s.maxSize ∧
      (writeAllRot ls s).maxFiles = s.maxFiles
  | [], s, c, hb, _ => by
    refine ⟨?_, fun p _ => rfl, ?_, rfl, rfl⟩
    · simp [writeAllRot, hb]
    · simp [writeAllRot]
  | line :: rest, s, c, hb, h => by
    have hle : s.currentSize + line.length ≤ s.maxSize := by
      simp only [List.map_cons, List.sum_cons] at h
      omega
    have hw := write_no_rotation s line hle
    have hwb : (RotatingFileSink.write s line).fs RPath.base = some (c ++ [line]) := by
      rw [hw.1, hb]
      simp
    have ih := writeAllRot_no_rotation rest (RotatingFileSink.write s line)
      (c ++ [line]) hwb
      (by simp only [List.map_cons, List.sum_cons] at h
          rw [hw.2.2.1, hw.2.2.2.1]
          omega)
    have hunfold : writeAllRot (line :: rest) s =
        writeAllRot rest (RotatingFileSink.write s line) := rfl
    rw [hunfold]
    refine ⟨?_, fun p hp => ?_, ?_, ?_, ?_⟩
    · rw [ih.1]
      simp
    · rw [ih.2.1 p hp, hw.2.1 p hp]
    · rw [ih.2.2.1, hw.2.2.1]
      simp only [List.map_cons, List.sum_cons]
      omega
    · rw [ih.2.2.2.1, hw.2.2.2.1]
    · rw [ih.2.2.2.2, hw.2.2.2.2]

/-- C6: on a fresh sink with `maxSize = S`, for a sequence of writes whose
cumulative serialized size first exceeds S on the final write, after that
write the base file's prior content sits verbatim at `<base>.1` and the
base file holds exactly the final line. -/
theorem c6_rotation_content (S M : Nat) (pre : List String) (lk : String)
    (h1 : (pre.map String.length).sum ≤ S)
    (h2 : S < (pre.map String.length).sum + lk.length) :
    (writeAllRot (pre ++ [lk]) (newRotatingFileSink S M emptyFS)).fs RPath.base =
      some [lk] ∧
    (writeAllRot (pre ++ [lk]) (newRotatingFileSink S M emptyFS)).fs (RPath.idx 1) =
      some pre := by
  have hbase0 : (newRotatingFileSink S M emptyFS).fs RPath.base = some [] := by
    simp [newRotatingFileSink, openCurrentFile, fsOpenAppend, emptyFS, fsUpdate]
  have hother0 : ∀ p, p ≠ RPath.base → (newRotatingFileSink S M emptyFS).fs p = none := by
    intro p hp
    simp [newRotatingFileSink, openCurrentFile, fsOpenAppend, emptyFS,
      fsUpdate_ne _ _ _ _ hp]
  have hcs0 : (newRotatingFileSink S M emptyFS).currentSize = 0 := by
    simp [newRotatingFileSink, openCurrentFile, fsOpenAppend, emptyFS, fsSize, fsUpdate]
  have hms0 : (newRotatingFileSink S M emptyFS).maxSize = S := rfl
  have hrun := writeAllRot_no_rotation pre (newRotatingFileSink S M emptyFS) [] hbase0
    (by rw [hcs0, hms0]; omega)
  have hs1base : (writeAllRot pre (newRotatingFileSink S M emptyFS)).fs RPath.base =
      some pre := by
    rw [hrun.1]
    simp
  have hs1idx : ∀ k, 1 ≤ k →
      (writeAllRot pre (newRotatingFileSink S M emptyFS)).fs (RPath.idx k) = none := by
    intro k _
    rw [hrun.2.1 (RPath.idx k) (by simp)]
    exact hother0 (RPath.idx k) (by simp)
  have hgt : (writeAllRot pre (newRotatingFileSink S M emptyFS)).currentSize + lk.length >
      (writeAllRot pre (newRotatingFileSink S M emptyFS)).maxSize := by
    rw [hrun.2.2.1, hrun.2.2.2.1, hcs0, hms0]
    omega
  have hfresh := write_rotation_fresh (writeAllRot pre (newRotatingFileSink S M emptyFS))
    lk hgt hs1idx
  have hsplit : writeAllRot (pre ++ [lk]) (newRotatingFileSink S M emptyFS) =
      RotatingFileSink.write (writeAllRot pre (newRotatingFileSink S M emptyFS)) lk := by
    simp [writeAllRot, List.foldl_append]
  rw [hsplit]
  exact ⟨hfresh.1, by rw [hfresh.2, hs1base]⟩

/-- C6 (witness): `maxSize = 5`; a 3-byte line then a second 3-byte line —
the second write rotates, leaving the first line at `<base>.1` and only
the second in the base file. -/
theorem c6_witness :
    (writeAllRot (["aaa"] ++ ["bbb"]) (newRotatingFileSink 5 3 emptyFS)).fs RPath.base =
      some ["bbb"] ∧
    (writeAllRot (["aaa"] ++ ["bbb"]) (newRotatingFileSink 5 3 emptyFS)).fs (RPath.idx 1) =
      some ["aaa"] :=
  c6_rotation_content 5 3 ["aaa"] "bbb" (by decide) (by decide)

end LoggerModel
